import Mathlib

/-!
# Verification of `helpers.py` (OneShotDL)

Shallow embedding of the two functions of `src/helpers.py`:

* `load_mnist` — decodes a gzip-compressed MNIST label/image file pair into
  arrays, with optional normalization, 4-d reshaping and one-hot encoding.
* `split_and_select_random_data` — stratified few-shot sampler over one-hot
  labelled arrays, with the inner helper `get_random_labeled_examples`.

Modelling conventions:

* A numpy 2-d array of labels is a `List (List Nat)` of rows together with an
  explicit width `w` (the array's second dimension, `y.shape[1]`), which a bare
  list of lists does not carry; theorems that need rectangularity assume
  `∀ row ∈ y, row.length = w`.
* Images are opaque rows of an arbitrary type (the sampler never inspects
  pixels); the loader models pixels as `ℚ` (`images/255` is exact rational
  division there; claims about it are rounding-independent).
* `random.sample(range(n), k)` is embedded by passing the drawn list in as a
  parameter: the call fails (raises `ValueError`) exactly when `k > n`, and
  otherwise returns a duplicate-free list of `k` numbers below `n` — the
  predicate `IsSample`.  Theorems quantify over all valid draws.
* Python exceptions are `Option`/`Except` failures; boolean mask indexing,
  fancy indexing and `~np.isin` are `applyMask`, `selectIdx` and `removeIdx`.
-/

namespace OneShotDL

/-- `random.sample(range(n), k)` returns a length-`k` duplicate-free list of
numbers below `n`; `s` is a possible outcome of that draw. -/
def IsSample (n k : Nat) (s : List Nat) : Prop :=
  s.Nodup ∧ s.length = k ∧ ∀ i ∈ s, i < n

/-- Embedding of `random.sample(range(n), k)` with the outcome `s` supplied
externally: the call raises `ValueError` (here: `none`) iff `k > n`. -/
def randomSample (s : List Nat) (n k : Nat) : Option (List Nat) :=
  if k ≤ n then some s else none

/-- Boolean-mask indexing `xs[m]`: keep the entries of `xs` whose mask bit is
`true`, in order. -/
def applyMask (xs : List α) (m : List Bool) : List α :=
  ((xs.zip m).filter (fun p => p.2)).map Prod.fst

/-- Fancy indexing `xs[idx]`: the entries of `xs` at the positions listed in
`idx`, in the order of `idx`. -/
def selectIdx (xs : List α) (idx : List Nat) : List α :=
  idx.filterMap (fun i => xs[i]?)

/-- `xs[~np.isin(np.arange(len(xs)), idx)]`: the entries of `xs` whose
position is not in `idx`, in their original order. -/
def removeIdx (xs : List α) (idx : List Nat) : List α :=
  (xs.enum.filter (fun p => decide (p.1 ∉ idx))).map Prod.snd

/-- The complement of `idx` inside `range n`, in increasing order. -/
def complIdx (n : Nat) (idx : List Nat) : List Nat :=
  (List.range n).filter (fun i => decide (i ∉ idx))

/-- The mask `y[:,c]==1` (source line 65/66): one bit per row of `y`. -/
def classMask (y : List (List Nat)) (c : Nat) : List Bool :=
  y.map (fun row => row.getD c 0 == 1)

/-- Number of rows of class `c`, i.e. `x_c.shape[0]` in
`get_random_labeled_examples`. -/
def classPop (x : List α) (y : List (List Nat)) (c : Nat) : Nat :=
  (applyMask x (classMask y c)).length

/-- `helpers.py` lines 54–74, `get_random_labeled_examples`: subset `x`/`y` to
the rows of class `c`, draw `num_labeled` random row positions without
replacement (outcome supplied as `draw`), and return the rows at those
positions (labeled data and their labels) together with the remaining rows
(unlabeled data).  `none` is the `ValueError` of `random.sample` when
`num_labeled` exceeds the class population. -/
def get_random_labeled_examples (draw : List Nat) (x : List α)
    (y : List (List Nat)) (c num_labeled : Nat) :
    Option (List α × List (List Nat) × List α) :=
  let x_c := applyMask x (classMask y c)
  let y_c := applyMask y (classMask y c)
  (randomSample draw x_c.length num_labeled).map (fun idx =>
    (selectIdx x_c idx, selectIdx y_c idx, removeIdx x_c idx))

/-- The row-sum `y[:,tcs].sum(axis=1)` of one row (source line 81/87). -/
def targetSum (tcs : List Nat) (row : List Nat) : Nat :=
  (tcs.map (fun c => row.getD c 0)).sum

/-- The mask `y[:,tcs].sum(axis=1)==1` over all rows of `y`. -/
def targetMask (tcs : List Nat) (y : List (List Nat)) : List Bool :=
  y.map (fun row => targetSum tcs row == 1)

/-- The per-class loop of `split_and_select_random_data` (lines 92–98): call
`get_random_labeled_examples` for each selected class in draw order,
concatenating the labeled data, the labels and the unlabeled data.  The `i`-th
class consumes the `i`-th entry of `draws` as its random outcome. -/
def sampleClasses (x_all : List α) (y_all : List (List Nat)) (k : Nat) :
    List Nat → List (List Nat) → Option (List α × List (List Nat) × List α)
  | [], _ => some ([], [], [])
  | c :: cs, draws =>
    match get_random_labeled_examples (draws.headD []) x_all y_all c k with
    | none => none
    | some (xl, yl, xu) =>
      match sampleClasses x_all y_all k cs draws.tail with
      | none => none
      | some (xls, yls, xus) => some (xl ++ xls, yl ++ yls, xu ++ xus)

/-- The seven arrays returned by `split_and_select_random_data`. -/
structure SplitResult (α : Type _) where
  x_target_labeled : List α
  y_target : List (List Nat)
  x_test : List α
  y_test : List (List Nat)
  x_target_unlabeled : List α
  x_auxiliary : List α
  y_auxiliary : List (List Nat)
deriving Repr, DecidableEq

/-- `helpers.py` lines 42–100, `split_and_select_random_data`.  `w` is
`y.shape[1]` (the one-hot width, carried separately since lists of lists do
not record it); `classDraw` is the outcome of the class draw
`random.sample(range(total_classes), num_target_classes)` and `idxDraws` the
outcomes of the per-class index draws, in class order.  `none` models the
exceptions: `ValueError` from either `random.sample` call, and the
`IndexError` at `target_classes[0]` when the class draw is empty. -/
def split_and_select_random_data (classDraw : List Nat)
    (idxDraws : List (List Nat)) (x : List α) (y : List (List Nat))
    (xtest : List α) (ytest : List (List Nat)) (w : Nat)
    (num_target_classes num_examples_per_class : Nat) :
    Option (SplitResult α) :=
  match randomSample classDraw w num_target_classes with
  | none => none
  | some target_classes =>
    let target_bools := targetMask target_classes y
    let y_target_all := applyMask y target_bools
    let x_target_all := applyMask x target_bools
    let y_auxiliary := applyMask y (target_bools.map (fun b => !b))
    let x_auxiliary := applyMask x (target_bools.map (fun b => !b))
    let test_bools := targetMask target_classes ytest
    let x_test := applyMask xtest test_bools
    let y_test := applyMask ytest test_bools
    if target_classes.isEmpty then none
    else
      match sampleClasses x_target_all y_target_all num_examples_per_class
          target_classes idxDraws with
      | none => none
      | some (xl, yl, xu) =>
        some ⟨xl, yl, x_test, y_test, xu, x_auxiliary, y_auxiliary⟩

/-- Every per-class index draw is a valid outcome of its
`random.sample(range(x_c.shape[0]), num_labeled)` call. -/
def ValidDraws (x_all : List α) (y_all : List (List Nat)) (k : Nat)
    (cs : List Nat) (draws : List (List Nat)) : Prop :=
  ∀ i, i < cs.length →
    IsSample (classPop x_all y_all (cs.getD i 0)) k (draws.getD i [])

/-- The row that `keras.utils.to_categorical` produces for class index `j`
with `w` classes: a single `1` at position `j`, `0` elsewhere. -/
def oneHotVec (w j : Nat) : List Nat :=
  (List.range w).map (fun i => if i = j then 1 else 0)

/-- A valid one-hot row of width `w`. -/
def OneHot (w : Nat) (row : List Nat) : Prop :=
  ∃ j, j < w ∧ row = oneHotVec w j

instance (n k : Nat) (s : List Nat) : Decidable (IsSample n k s) :=
  inferInstanceAs (Decidable (s.Nodup ∧ s.length = k ∧ ∀ i ∈ s, i < n))

instance (x_all : List α) (y_all : List (List Nat)) (k : Nat) (cs : List Nat)
    (draws : List (List Nat)) :
    Decidable (ValidDraws x_all y_all k cs draws) :=
  inferInstanceAs (Decidable (∀ i, i < cs.length →
    IsSample (classPop x_all y_all (cs.getD i 0)) k (draws.getD i [])))

instance (w : Nat) (row : List Nat) : Decidable (OneHot w row) :=
  inferInstanceAs (Decidable (∃ j, j < w ∧ row = oneHotVec w j))

/-! ### The dataset loader

`load_mnist` does I/O through `gzip.open(...).read()`: that call either
raises `FileNotFoundError`, raises `BadGzipFile`/`EOFError` on invalid gzip
data, or yields the decompressed bytes.  The boundary is embedded by the
`GzFile` type: what the filesystem provides for one path.  Pixels are `ℚ`
(`images/255` is exact there; the claims proved about it do not depend on
rounding). -/

/-- What `gzip.open(path).read()` yields for one file path: the file is
missing, is not valid gzip, or decompresses to `bytes`. -/
inductive GzFile where
  | missing
  | corrupt
  | ok (bytes : List Nat)
deriving Repr, DecidableEq

/-- The exceptions `load_mnist` can propagate: `FileNotFoundError`,
`BadGzipFile`, `ValueError` from `np.frombuffer` (offset beyond buffer),
`ValueError` from `.reshape` (element count mismatch), and `IndexError` from
`to_categorical` (label out of range). -/
inductive LoadError where
  | fileNotFound
  | badGzip
  | badOffset
  | badReshape
  | badLabel
deriving Repr, DecidableEq

/-- `gzip.open(path, 'rb').read()` (source lines 22/26). -/
def readGzip : GzFile → Except LoadError (List Nat)
  | .missing => .error .fileNotFound
  | .corrupt => .error .badGzip
  | .ok bs => .ok bs

/-- `np.frombuffer(buf, dtype=np.uint8, offset=o)`: all bytes after the
fixed header offset; raises if the offset exceeds the buffer length. -/
def frombufferU8 (buf : List Nat) (offset : Nat) : Except LoadError (List Nat) :=
  if offset ≤ buf.length then .ok (buf.drop offset) else .error .badOffset

/-- `.reshape(count, rowLen)`: split the flat data into `count` rows of
`rowLen`; raises unless the element count matches exactly. -/
def reshapeRows (data : List Nat) (count rowLen : Nat) :
    Except LoadError (List (List Nat)) :=
  if data.length = count * rowLen then
    .ok ((List.range count).map (fun i => (data.drop (rowLen * i)).take rowLen))
  else .error .badReshape

/-- `keras.utils.to_categorical(labels, numClasses)`: one one-hot row per
label; raises `IndexError` if some label is `≥ numClasses`. -/
def to_categorical (labels : List Nat) (numClasses : Nat) :
    Except LoadError (List (List Nat)) :=
  if labels.all (fun v => v < numClasses) then
    .ok (labels.map (oneHotVec numClasses))
  else .error .badLabel

/-- The image output of `load_mnist`: a `(count, 784)` array, or the
`(count, 28, 28, 1)` tensor when `return_4d_tensor` is set. -/
inductive ImagesOut where
  | flat (rows : List (List ℚ))
  | tensor4 (t : List (List (List (List ℚ))))
deriving DecidableEq

/-- The label output of `load_mnist`: raw integer labels, or one-hot rows
when `one_hot` is set. -/
inductive LabelsOut where
  | ints (l : List Nat)
  | oneHot (rows : List (List Nat))
deriving DecidableEq

/-- `images.reshape((count, 28, 28, 1))` applied to `(count, 784)` rows:
regroup each row into 28 rows of 28 single-channel pixels. -/
def reshape4d (rows : List (List ℚ)) : List (List (List (List ℚ))) :=
  rows.map (fun r => (List.range 28).map (fun i =>
    ((r.drop (28 * i)).take 28).map (fun q => [q])))

/-- `helpers.py` lines 7–39, `load_mnist`: read and decode the gzip label
file (8-byte header) and image file (16-byte header), reshape the image
bytes to `(len(labels), 784)`, optionally divide by 255, optionally reshape
to a 4-d tensor, optionally one-hot encode the labels with 10 classes.
Every exception propagates (`Except.error`); there is no partial result. -/
def load_mnist (labelFile imageFile : GzFile)
    (normalize return_4d_tensor one_hot : Bool) :
    Except LoadError (ImagesOut × LabelsOut) :=
  match readGzip labelFile with
  | .error e => .error e
  | .ok lbuf =>
    match frombufferU8 lbuf 8 with
    | .error e => .error e
    | .ok labels =>
      match readGzip imageFile with
      | .error e => .error e
      | .ok ibuf =>
        match frombufferU8 ibuf 16 with
        | .error e => .error e
        | .ok idata =>
          match reshapeRows idata labels.length 784 with
          | .error e => .error e
          | .ok imagesRaw =>
            let images : List (List ℚ) :=
              if normalize then
                imagesRaw.map (fun r => r.map (fun (v : Nat) => (v : ℚ) / 255))
              else
                imagesRaw.map (fun r => r.map (fun (v : Nat) => (v : ℚ)))
            let imgOut : ImagesOut :=
              if return_4d_tensor then ImagesOut.tensor4 (reshape4d images)
              else ImagesOut.flat images
            match (if one_hot then
                (to_categorical labels 10).map LabelsOut.oneHot
              else .ok (LabelsOut.ints labels)) with
            | .error e => .error e
            | .ok labOut => .ok (imgOut, labOut)

/-- The raw `(len(labels), 784)` image rows decoded from a label buffer `lb`
and an image buffer `ib` (what `reshapeRows` yields on success). -/
def rawRows (lb ib : List Nat) : List (List Nat) :=
  (List.range (lb.drop 8).length).map
    (fun i => ((ib.drop 16).drop (784 * i)).take 784)

/-! ### Basic lemmas about the indexing embeddings -/

theorem randomSample_eq_some {s t : List Nat} {n k : Nat} :
    randomSample s n k = some t ↔ k ≤ n ∧ t = s := by
  unfold randomSample
  split <;> simp_all [eq_comm]

theorem randomSample_eq_none {s : List Nat} {n k : Nat} :
    randomSample s n k = none ↔ n < k := by
  unfold randomSample
  split <;> simp <;> omega

theorem applyMask_nil (m : List Bool) : applyMask ([] : List α) m = [] := rfl

theorem applyMask_nil_mask (xs : List α) : applyMask xs [] = [] := by
  cases xs <;> rfl

theorem applyMask_cons (a : α) (xs : List α) (b : Bool) (m : List Bool) :
    applyMask (a :: xs) (b :: m) =
      if b then a :: applyMask xs m else applyMask xs m := by
  cases b <;> simp [applyMask, List.filter_cons]

theorem applyMask_map_self (p : α → Bool) (xs : List α) :
    applyMask xs (xs.map p) = xs.filter p := by
  induction xs with
  | nil => rfl
  | cons a ys ih =>
    by_cases h : p a <;> simp [applyMask_cons, List.filter_cons, h, ih]

theorem applyMask_not_perm (xs : List α) (m : List Bool)
    (h : xs.length = m.length) :
    (applyMask xs m ++ applyMask xs (m.map (fun b => !b))).Perm xs := by
  induction xs generalizing m with
  | nil => simp [applyMask]
  | cons a ys ih =>
    cases m with
    | nil => simp at h
    | cons b ms =>
      simp only [List.length_cons] at h
      have ih2 := ih ms (by omega)
      cases b
      · simp only [List.map_cons, applyMask_cons, Bool.not_false, if_neg, if_pos,
          Bool.false_eq_true, not_false_eq_true, reduceIte]
        exact List.perm_middle.trans (ih2.cons a)
      · simp only [List.map_cons, applyMask_cons, Bool.not_true, reduceIte,
          Bool.false_eq_true, List.cons_append]
        exact ih2.cons a

theorem mem_of_mem_applyMask {xs : List α} {m : List Bool} {a : α}
    (h : a ∈ applyMask xs m) : a ∈ xs := by
  unfold applyMask at h
  rcases List.mem_map.mp h with ⟨p, hp, rfl⟩
  exact (List.of_mem_zip (List.mem_of_mem_filter hp)).1

theorem applyMask_zip (x : List α) (y : List β) (m : List Bool)
    (h : x.length = y.length) :
    (applyMask x m).zip (applyMask y m) = applyMask (x.zip y) m := by
  induction x generalizing y m with
  | nil =>
    have : y = [] := List.length_eq_zero.mp h.symm
    subst this; rfl
  | cons a xs ih =>
    cases y with
    | nil => simp at h
    | cons b ys =>
      cases m with
      | nil => simp [applyMask_nil_mask]
      | cons c ms =>
        simp only [List.length_cons] at h
        have ih2 := ih ys ms (by omega)
        cases c
        · simpa [applyMask_cons] using ih2
        · simpa [applyMask_cons] using ih2

theorem length_applyMask_eq (x : List α) (y : List β) (m : List Bool)
    (h : x.length = y.length) :
    (applyMask x m).length = (applyMask y m).length := by
  induction x generalizing y m with
  | nil =>
    have : y = [] := List.length_eq_zero.mp h.symm
    subst this; rfl
  | cons a xs ih =>
    cases y with
    | nil => simp at h
    | cons b ys =>
      cases m with
      | nil => simp [applyMask_nil_mask]
      | cons c ms =>
        simp only [List.length_cons] at h
        have ih2 := ih ys ms (by omega)
        cases c
        · simpa [applyMask_cons] using ih2
        · simpa [applyMask_cons] using ih2

theorem selectIdx_cons_some {xs : List α} {i : Nat} {a : α} (idx : List Nat)
    (h : xs[i]? = some a) :
    selectIdx xs (i :: idx) = a :: selectIdx xs idx := by
  simp [selectIdx, List.filterMap_cons, h]

theorem selectIdx_cons_none {xs : List α} {i : Nat} (idx : List Nat)
    (h : xs[i]? = none) :
    selectIdx xs (i :: idx) = selectIdx xs idx := by
  simp [selectIdx, List.filterMap_cons, h]

theorem mem_of_mem_selectIdx {xs : List α} {idx : List Nat} {a : α}
    (h : a ∈ selectIdx xs idx) : a ∈ xs := by
  unfold selectIdx at h
  rcases List.mem_filterMap.mp h with ⟨i, _, hi⟩
  exact List.getElem?_mem hi

theorem length_selectIdx_of_valid (xs : List α) (idx : List Nat)
    (h : ∀ i ∈ idx, i < xs.length) :
    (selectIdx xs idx).length = idx.length := by
  induction idx with
  | nil => rfl
  | cons i idx ih =>
    have hi : i < xs.length := h i (by simp)
    have hrest : ∀ j ∈ idx, j < xs.length := fun j hj => h j (by simp [hj])
    rw [selectIdx_cons_some idx (List.getElem?_eq_getElem hi), List.length_cons,
      List.length_cons, ih hrest]

theorem length_selectIdx_eq (xs : List α) (ys : List β) (idx : List Nat)
    (h : xs.length = ys.length) :
    (selectIdx xs idx).length = (selectIdx ys idx).length := by
  induction idx with
  | nil => rfl
  | cons i idx ih =>
    by_cases hi : i < xs.length
    · rw [selectIdx_cons_some idx (List.getElem?_eq_getElem hi),
        selectIdx_cons_some idx (List.getElem?_eq_getElem (h ▸ hi : i < ys.length)),
        List.length_cons, List.length_cons, ih]
    · rw [selectIdx_cons_none idx (List.getElem?_eq_none (by omega)),
        selectIdx_cons_none idx (List.getElem?_eq_none (by omega)), ih]

theorem selectIdx_append (xs : List α) (i₁ i₂ : List Nat) :
    selectIdx xs (i₁ ++ i₂) = selectIdx xs i₁ ++ selectIdx xs i₂ :=
  List.filterMap_append _ _ _

theorem selectIdx_range (xs : List α) :
    selectIdx xs (List.range xs.length) = xs := by
  induction xs with
  | nil => rfl
  | cons a ys ih =>
    rw [List.length_cons, List.range_succ_eq_map,
      selectIdx_cons_some _ (List.getElem?_cons_zero)]
    have hcomp : (fun i => (a :: ys)[i]?) ∘ Nat.succ = fun i : Nat => ys[i]? := by
      funext i
      simp
    unfold selectIdx
    rw [List.filterMap_map, hcomp]
    unfold selectIdx at ih
    rw [ih]

theorem selectIdx_perm (xs : List α) {i₁ i₂ : List Nat} (h : i₁.Perm i₂) :
    (selectIdx xs i₁).Perm (selectIdx xs i₂) :=
  h.filterMap _

theorem selectIdx_zip (xs : List α) (ys : List β) (idx : List Nat)
    (h : xs.length = ys.length) :
    (selectIdx xs idx).zip (selectIdx ys idx) = selectIdx (xs.zip ys) idx := by
  induction idx with
  | nil => rfl
  | cons i idx ih =>
    by_cases hi : i < xs.length
    · have hx := List.getElem?_eq_getElem hi
      have hy := List.getElem?_eq_getElem (h ▸ hi : i < ys.length)
      have hz : (xs.zip ys)[i]? = some (xs[i], ys[i]) :=
        List.getElem?_zip_eq_some.mpr ⟨hx, hy⟩
      rw [selectIdx_cons_some idx hx, selectIdx_cons_some idx hy,
        selectIdx_cons_some idx hz, List.zip_cons_cons, ih]
    · have hx : xs[i]? = none := List.getElem?_eq_none (by omega)
      have hy : ys[i]? = none := List.getElem?_eq_none (by omega)
      have hz : (xs.zip ys)[i]? = none :=
        List.getElem?_eq_none (by simp [List.length_zip]; omega)
      rw [selectIdx_cons_none idx hx, selectIdx_cons_none idx hy,
        selectIdx_cons_none idx hz, ih]

theorem enum_filter_map_snd (xs : List α) (P : Nat → Bool) :
    (xs.enum.filter (fun p => P p.1)).map Prod.snd =
      selectIdx xs ((List.range xs.length).filter P) := by
  induction xs generalizing P with
  | nil => rfl
  | cons a ys ih =>
    have hcomp : (fun i => (a :: ys)[i]?) ∘ (fun i : Nat => i + 1) =
        fun i : Nat => ys[i]? := by
      funext i
      simp
    have hsnd : (Prod.snd ∘ Prod.map (fun i : Nat => i + 1) (id : α → α)) =
        (Prod.snd : Nat × α → α) := by
      funext p
      cases p
      rfl
    have hpred : ((fun p : Nat × α => P p.1) ∘
        Prod.map (fun i : Nat => i + 1) (id : α → α)) =
        fun p : Nat × α => P (p.1 + 1) := by
      funext p
      cases p
      rfl
    have hrange : List.range (ys.length + 1) =
        0 :: (List.range ys.length).map (fun i => i + 1) := by
      rw [List.range_succ_eq_map]
    have key : ((ys.enum.map (Prod.map (fun i : Nat => i + 1)
          (id : α → α))).filter (fun p => P p.1)).map Prod.snd =
        selectIdx (a :: ys) (((List.range ys.length).map
          (fun i => i + 1)).filter P) := by
      rw [List.filter_map, List.map_map, hsnd, hpred, List.filter_map]
      unfold selectIdx
      rw [List.filterMap_map, hcomp]
      have h2 : (P ∘ fun i : Nat => i + 1) = fun i : Nat => P (i + 1) := rfl
      rw [h2]
      have hmain := ih (fun i => P (i + 1))
      unfold selectIdx at hmain
      exact hmain
    rw [List.enum_cons', List.length_cons, hrange, List.filter_cons,
      List.filter_cons]
    by_cases h0 : P 0
    · simp only [h0, reduceIte, List.map_cons]
      rw [selectIdx_cons_some _ (List.getElem?_cons_zero)]
      exact congrArg (a :: ·) key
    · simp only [h0, Bool.false_eq_true, reduceIte]
      exact key

theorem removeIdx_eq_selectIdx_compl (xs : List α) (idx : List Nat) :
    removeIdx xs idx = selectIdx xs (complIdx xs.length idx) := by
  unfold removeIdx complIdx
  exact enum_filter_map_snd xs (fun i => decide (i ∉ idx))

/-! ### Sampling lemmas -/

theorem nodup_complIdx (n : Nat) (idx : List Nat) : (complIdx n idx).Nodup :=
  (List.nodup_range n).filter _

theorem mem_complIdx {n i : Nat} {idx : List Nat} :
    i ∈ complIdx n idx ↔ i < n ∧ i ∉ idx := by
  simp [complIdx, List.mem_filter]

theorem sample_append_compl_perm {n k : Nat} {idx : List Nat}
    (h : IsSample n k idx) :
    (idx ++ complIdx n idx).Perm (List.range n) := by
  obtain ⟨hnd, _, hmem⟩ := h
  have hndc : (idx ++ complIdx n idx).Nodup := by
    refine List.Nodup.append hnd (nodup_complIdx n idx) ?_
    intro a ha hc
    exact (mem_complIdx.mp hc).2 ha
  have h1 : (idx ++ complIdx n idx) ⊆ List.range n := by
    intro a ha
    rcases List.mem_append.mp ha with h | h
    · exact List.mem_range.mpr (hmem a h)
    · exact List.mem_range.mpr (mem_complIdx.mp h).1
  have h2 : List.range n ⊆ idx ++ complIdx n idx := by
    intro a ha
    by_cases hin : a ∈ idx
    · exact List.mem_append.mpr (Or.inl hin)
    · exact List.mem_append.mpr
        (Or.inr (mem_complIdx.mpr ⟨List.mem_range.mp ha, hin⟩))
  exact (hndc.subperm h1).antisymm ((List.nodup_range n).subperm h2)

theorem selectIdx_compl_perm {xs : List α} {k : Nat} {idx : List Nat}
    (h : IsSample xs.length k idx) :
    (selectIdx xs idx ++ removeIdx xs idx).Perm xs := by
  rw [removeIdx_eq_selectIdx_compl, ← selectIdx_append]
  have hperm := selectIdx_perm xs (sample_append_compl_perm h)
  rw [selectIdx_range] at hperm
  exact hperm

theorem grle_eq_some_iff {draw : List Nat} {x : List α} {y : List (List Nat)}
    {c k : Nat} {r : List α × List (List Nat) × List α} :
    get_random_labeled_examples draw x y c k = some r ↔
      k ≤ classPop x y c ∧
      r = (selectIdx (applyMask x (classMask y c)) draw,
           selectIdx (applyMask y (classMask y c)) draw,
           removeIdx (applyMask x (classMask y c)) draw) := by
  unfold get_random_labeled_examples randomSample classPop
  by_cases h : k ≤ (applyMask x (classMask y c)).length
  · simp only [h, reduceIte, Option.map_some', Option.some.injEq, true_and]
    exact eq_comm
  · simp [h]

theorem grle_eq_none_iff {draw : List Nat} {x : List α} {y : List (List Nat)}
    {c k : Nat} :
    get_random_labeled_examples draw x y c k = none ↔ classPop x y c < k := by
  unfold get_random_labeled_examples randomSample classPop
  by_cases h : k ≤ (applyMask x (classMask y c)).length
  · simp only [h, reduceIte, Option.map_some]
    constructor
    · intro hc
      exact absurd hc (by simp)
    · omega
  · simp only [h, reduceIte, Option.map_none]
    constructor
    · intro _
      omega
    · intro _
      rfl

theorem sampleClasses_eq_none_iff {x_all : List α} {y_all : List (List Nat)}
    {k : Nat} (cs : List Nat) (draws : List (List Nat)) :
    sampleClasses x_all y_all k cs draws = none ↔
      ∃ c ∈ cs, classPop x_all y_all c < k := by
  induction cs generalizing draws with
  | nil => simp [sampleClasses]
  | cons c cs ih =>
    rw [sampleClasses]
    cases hg : get_random_labeled_examples (draws.headD []) x_all y_all c k with
    | none =>
      have hc := grle_eq_none_iff.mp hg
      simp only [true_iff]
      exact ⟨c, List.mem_cons_self c cs, hc⟩
    | some r =>
      obtain ⟨xl, yl, xu⟩ := r
      have hk := (grle_eq_some_iff.mp hg).1
      cases hs : sampleClasses x_all y_all k cs draws.tail with
      | none =>
        obtain ⟨d, hd, hdlt⟩ := (ih draws.tail).mp hs
        simp only [true_iff]
        exact ⟨d, List.mem_cons_of_mem c hd, hdlt⟩
      | some r2 =>
        obtain ⟨xls, yls, xus⟩ := r2
        have hnone := (ih draws.tail)
        simp only [hs, reduceCtorEq, false_iff, not_exists] at hnone
        simp only [reduceCtorEq, false_iff, not_exists]
        intro d hd
        obtain ⟨hdm, hdlt⟩ := hd
        rcases List.mem_cons.mp hdm with hd2 | hd2
        · subst hd2
          omega
        · exact hnone d ⟨hd2, hdlt⟩

theorem headD_eq_getD_zero (l : List (List Nat)) : l.headD [] = l.getD 0 [] := by
  cases l <;> rfl

theorem tail_getD (l : List (List Nat)) (i : Nat) :
    l.tail.getD i [] = l.getD (i + 1) [] := by
  cases l <;> rfl

theorem ValidDraws.tail {x_all : List α} {y_all : List (List Nat)} {k : Nat}
    {c : Nat} {cs : List Nat} {draws : List (List Nat)}
    (h : ValidDraws x_all y_all k (c :: cs) draws) :
    ValidDraws x_all y_all k cs draws.tail := by
  intro i hi
  rw [tail_getD]
  exact h (i + 1) (by simpa using Nat.succ_lt_succ hi)

theorem ValidDraws.head {x_all : List α} {y_all : List (List Nat)} {k : Nat}
    {c : Nat} {cs : List Nat} {draws : List (List Nat)}
    (h : ValidDraws x_all y_all k (c :: cs) draws) :
    IsSample (classPop x_all y_all c) k (draws.headD []) := by
  rw [headD_eq_getD_zero]
  exact h 0 (by simp)

theorem sampleClasses_blocks {x_all : List α} {y_all : List (List Nat)}
    {k : Nat} {cs : List Nat} {draws : List (List Nat)}
    {xl : List α} {yl : List (List Nat)} {xu : List α}
    (h : sampleClasses x_all y_all k cs draws = some (xl, yl, xu))
    (hv : ValidDraws x_all y_all k cs draws)
    (hxy : x_all.length = y_all.length) :
    ∃ blocks : List (List α),
      blocks.length = cs.length ∧
      (∀ b ∈ blocks, b.length = k) ∧
      xl = blocks.flatten ∧
      (∀ i, i < cs.length → ∀ a ∈ blocks.getD i [],
        a ∈ applyMask x_all (classMask y_all (cs.getD i 0))) ∧
      xl.length = cs.length * k ∧ yl.length = cs.length * k := by
  induction cs generalizing draws xl yl xu with
  | nil =>
    rw [sampleClasses] at h
    obtain ⟨rfl, rfl, rfl⟩ : xl = [] ∧ yl = [] ∧ xu = [] := by
      simpa [Prod.ext_iff] using h.symm
    exact ⟨[], by simp, by simp, by simp, by simp, by simp, by simp⟩
  | cons c cs ih =>
    rw [sampleClasses] at h
    cases hg : get_random_labeled_examples (draws.headD []) x_all y_all c k with
    | none => rw [hg] at h; exact absurd h (by simp)
    | some r =>
      obtain ⟨xl0, yl0, xu0⟩ := r
      rw [hg] at h
      cases hs : sampleClasses x_all y_all k cs draws.tail with
      | none => rw [hs] at h; exact absurd h (by simp)
      | some r2 =>
        obtain ⟨xls, yls, xus⟩ := r2
        rw [hs] at h
        obtain ⟨rfl, rfl, rfl⟩ : xl = xl0 ++ xls ∧ yl = yl0 ++ yls ∧
            xu = xu0 ++ xus := by
          simpa [Prod.ext_iff] using h.symm
        obtain ⟨hk, hr⟩ := grle_eq_some_iff.mp hg
        obtain ⟨hxl0, hyl0, _⟩ : xl0 = _ ∧ yl0 = _ ∧ xu0 = _ := by
          simpa only [Prod.mk.injEq] using hr
        have hsamp := hv.head
        obtain ⟨_, hdlen, hdmem⟩ := hsamp
        have hlen_xc : (applyMask y_all (classMask y_all c)).length =
            (applyMask x_all (classMask y_all c)).length :=
          length_applyMask_eq _ _ _ hxy.symm
        have hxl0len : xl0.length = k := by
          rw [hxl0, length_selectIdx_of_valid _ _ (fun i hi => hdmem i hi), hdlen]
        have hyl0len : yl0.length = k := by
          rw [hyl0, length_selectIdx_of_valid _ _
            (fun i hi => hlen_xc ▸ hdmem i hi), hdlen]
        obtain ⟨blocks, hb1, hb2, hb3, hb4, hb5, hb6⟩ :=
          ih hs hv.tail
        refine ⟨xl0 :: blocks, by simp [hb1], ?_, by simp [hb3], ?_, ?_, ?_⟩
        · intro b hb
          rcases List.mem_cons.mp hb with rfl | hb
          · exact hxl0len
          · exact hb2 b hb
        · intro i hi a ha
          cases i with
          | zero =>
            simp only [List.getD_cons_zero] at ha
            rw [hxl0] at ha
            simpa using mem_of_mem_selectIdx ha
          | succ j =>
            simp only [List.getD_cons_succ] at ha
            simp only [List.getD_cons_succ]
            exact hb4 j (by simpa using hi) a ha
        · simp [hxl0len, hb5, Nat.succ_mul, Nat.add_comm]
        · simp [hyl0len, hb6, Nat.succ_mul, Nat.add_comm]

theorem sampleClasses_align {x_all : List α} {y_all : List (List Nat)}
    {k : Nat} {cs : List Nat} {draws : List (List Nat)}
    {xl : List α} {yl : List (List Nat)} {xu : List α}
    (h : sampleClasses x_all y_all k cs draws = some (xl, yl, xu))
    (hxy : x_all.length = y_all.length) :
    xl.length = yl.length ∧
    (∀ pr ∈ xl.zip yl, pr ∈ x_all.zip y_all) ∧
    (∀ row ∈ yl, ∃ c ∈ cs, row.getD c 0 = 1) := by
  induction cs generalizing draws xl yl xu with
  | nil =>
    rw [sampleClasses] at h
    obtain ⟨rfl, rfl, rfl⟩ : xl = [] ∧ yl = [] ∧ xu = [] := by
      simpa [Prod.ext_iff] using h.symm
    exact ⟨rfl, by simp, by simp⟩
  | cons c cs ih =>
    rw [sampleClasses] at h
    cases hg : get_random_labeled_examples (draws.headD []) x_all y_all c k with
    | none => rw [hg] at h; exact absurd h (by simp)
    | some r =>
      obtain ⟨xl0, yl0, xu0⟩ := r
      rw [hg] at h
      cases hs : sampleClasses x_all y_all k cs draws.tail with
      | none => rw [hs] at h; exact absurd h (by simp)
      | some r2 =>
        obtain ⟨xls, yls, xus⟩ := r2
        rw [hs] at h
        obtain ⟨rfl, rfl, rfl⟩ : xl = xl0 ++ xls ∧ yl = yl0 ++ yls ∧
            xu = xu0 ++ xus := by
          simpa [Prod.ext_iff] using h.symm
        obtain ⟨_, hr⟩ := grle_eq_some_iff.mp hg
        obtain ⟨hxl0, hyl0, _⟩ : xl0 = _ ∧ yl0 = _ ∧ xu0 = _ := by
          simpa only [Prod.mk.injEq] using hr
        have hlen_c : (applyMask x_all (classMask y_all c)).length =
            (applyMask y_all (classMask y_all c)).length :=
          length_applyMask_eq _ _ _ hxy
        have hlen0 : xl0.length = yl0.length := by
          rw [hxl0, hyl0]
          exact length_selectIdx_eq _ _ _ hlen_c
        obtain ⟨ihlen, ihzip, ihrow⟩ := ih hs
        refine ⟨by simp [hlen0, ihlen], ?_, ?_⟩
        · intro pr hpr
          rw [List.zip_append hlen0] at hpr
          rcases List.mem_append.mp hpr with hpr | hpr
          · rw [hxl0, hyl0, selectIdx_zip _ _ _ hlen_c] at hpr
            have h1 : pr ∈ (applyMask x_all (classMask y_all c)).zip
                (applyMask y_all (classMask y_all c)) :=
              mem_of_mem_selectIdx hpr
            rw [applyMask_zip _ _ _ hxy] at h1
            exact mem_of_mem_applyMask h1
          · exact ihzip pr hpr
        · intro row hrow
          rcases List.mem_append.mp hrow with hrow | hrow
          · rw [hyl0] at hrow
            have h1 : row ∈ applyMask y_all (classMask y_all c) :=
              mem_of_mem_selectIdx hrow
            rw [classMask, applyMask_map_self] at h1
            have h2 := (List.mem_filter.mp h1).2
            exact ⟨c, List.mem_cons_self c cs, by simpa using h2⟩
          · obtain ⟨d, hd, hd1⟩ := ihrow row hrow
            exact ⟨d, List.mem_cons_of_mem c hd, hd1⟩

/-- Inversion of a successful `split_and_select_random_data` call: the class
draw succeeded and was nonempty, the per-class loop succeeded, and every
returned field is the corresponding intermediate array. -/
theorem split_eq_some_iff {classDraw : List Nat} {idxDraws : List (List Nat)}
    {x : List α} {y : List (List Nat)} {xtest : List α}
    {ytest : List (List Nat)} {w ntc k : Nat} {res : SplitResult α} :
    split_and_select_random_data classDraw idxDraws x y xtest ytest w ntc k =
        some res ↔
      ntc ≤ w ∧ classDraw ≠ [] ∧
      ∃ xl yl xu,
        sampleClasses (applyMask x (targetMask classDraw y))
            (applyMask y (targetMask classDraw y)) k classDraw idxDraws =
          some (xl, yl, xu) ∧
        res = ⟨xl, yl,
          applyMask xtest (targetMask classDraw ytest),
          applyMask ytest (targetMask classDraw ytest),
          xu,
          applyMask x ((targetMask classDraw y).map (fun b => !b)),
          applyMask y ((targetMask classDraw y).map (fun b => !b))⟩ := by
  unfold split_and_select_random_data randomSample
  by_cases h : ntc ≤ w
  · simp only [h, reduceIte, true_and]
    by_cases he : classDraw.isEmpty
    · rw [List.isEmpty_iff] at he
      simp [he]
    · rw [List.isEmpty_iff] at he
      simp only [List.isEmpty_eq_true, he, Bool.false_eq_true, reduceIte,
        ne_eq, not_false_eq_true, true_and]
      cases hs : sampleClasses (applyMask x (targetMask classDraw y))
          (applyMask y (targetMask classDraw y)) k classDraw idxDraws with
      | none => simp
      | some r =>
        obtain ⟨xl, yl, xu⟩ := r
        simp only [Option.some.injEq]
        constructor
        · intro hres
          exact ⟨xl, yl, xu, rfl, hres.symm⟩
        · rintro ⟨xl2, yl2, xu2, heq, rfl⟩
          obtain ⟨rfl, rfl, rfl⟩ : xl = xl2 ∧ yl = yl2 ∧ xu = xu2 := by
            simpa only [Prod.mk.injEq] using heq
          rfl
  · simp only [h, reduceIte, reduceCtorEq, false_iff]
    intro hcontr
    exact hcontr.1.elim

/-! ### One-hot vector lemmas -/

theorem length_oneHotVec (w j : Nat) : (oneHotVec w j).length = w := by
  simp [oneHotVec]

theorem getD_oneHotVec_of_lt {w c : Nat} (j : Nat) (hc : c < w) :
    (oneHotVec w j).getD c 0 = if c = j then 1 else 0 := by
  rw [List.getD_eq_getElem?_getD]
  have hlen : c < (oneHotVec w j).length := by
    rw [length_oneHotVec]
    exact hc
  rw [List.getElem?_eq_getElem hlen]
  simp [oneHotVec]

theorem getD_oneHotVec_of_ge {w c : Nat} (j : Nat) (hc : w ≤ c) :
    (oneHotVec w j).getD c 0 = 0 := by
  rw [List.getD_eq_getElem?_getD, List.getElem?_eq_none]
  · rfl
  · rw [length_oneHotVec]
    exact hc

theorem sum_oneHotVec {w j : Nat} (hj : j < w) : (oneHotVec w j).sum = 1 := by
  induction w with
  | zero => omega
  | succ n ih =>
    rw [oneHotVec, List.range_succ, List.map_append, List.sum_append]
    by_cases hjn : j < n
    · have h1 : ((List.range n).map (fun i => if i = j then 1 else 0)).sum = 1 :=
        ih hjn
      have h2 : n ≠ j := by omega
      simp [h1, h2]
    · have hjeq : j = n := by omega
      subst hjeq
      have h1 : ((List.range j).map
          (fun i => if i = j then 1 else 0)).sum = 0 := by
        apply List.sum_eq_zero
        intro a ha
        rcases List.mem_map.mp ha with ⟨i, hi, rfl⟩
        have : i ≠ j := by
          have := List.mem_range.mp hi
          omega
        simp [this]
      simp [h1]

theorem targetSum_oneHotVec {w j : Nat} (tcs : List Nat) (_hj : j < w)
    (hbound : ∀ c ∈ tcs, c < w) :
    targetSum tcs (oneHotVec w j) = tcs.count j := by
  induction tcs with
  | nil => rfl
  | cons c tcs ih =>
    have hc : c < w := hbound c (by simp)
    have hrest : ∀ d ∈ tcs, d < w := fun d hd => hbound d (by simp [hd])
    rw [targetSum, List.map_cons, List.sum_cons, List.count_cons]
    rw [getD_oneHotVec_of_lt j hc]
    have htail : (tcs.map (fun d => (oneHotVec w j).getD d 0)).sum =
        tcs.count j := ih hrest
    by_cases hcj : c = j
    · simp [hcj, targetSum] at htail ⊢
      omega
    · have : ¬(c == j) = true := by simpa using hcj
      simp [hcj, this, targetSum] at htail ⊢
      exact htail

theorem targetSum_eq_one_iff {w : Nat} {row : List Nat} {tcs : List Nat}
    (hrow : OneHot w row) (hnd : tcs.Nodup) (hbound : ∀ c ∈ tcs, c < w) :
    targetSum tcs row = 1 ↔ ∃ c ∈ tcs, row.getD c 0 = 1 := by
  obtain ⟨j, hj, rfl⟩ := hrow
  rw [targetSum_oneHotVec tcs hj hbound]
  constructor
  · intro hcount
    have hmem : j ∈ tcs := List.count_pos_iff.mp (by omega)
    refine ⟨j, hmem, ?_⟩
    rw [getD_oneHotVec_of_lt j hj]
    simp
  · rintro ⟨c, hc, hgetD⟩
    have hcw : c < w := hbound c hc
    rw [getD_oneHotVec_of_lt j hcw] at hgetD
    have hcj : c = j := by
      by_contra hne
      simp [hne] at hgetD
    subst hcj
    exact List.count_eq_one_of_mem hnd hc

/-! ### Claims about the sampler -/

/-- C1: on valid one-hot training labels, with a valid class draw of size
`num_target_classes ≤ w` and valid per-class index draws of size
`num_examples_per_class`, a successful `split_and_select_random_data` returns
a labeled set of exactly `num_target_classes * num_examples_per_class` rows
(both images and labels), which is the concatenation, in the order the
classes were drawn, of one block per selected class, each block of exactly
`num_examples_per_class` rows all taken from that class's rows. -/
theorem C1_labeled_set_size {classDraw : List Nat} {idxDraws : List (List Nat)}
    {x : List α} {y : List (List Nat)} {xtest : List α}
    {ytest : List (List Nat)} {w ntc k : Nat} {res : SplitResult α}
    (hxy : x.length = y.length)
    (hclass : IsSample w ntc classDraw)
    (hdraws : ValidDraws (applyMask x (targetMask classDraw y))
      (applyMask y (targetMask classDraw y)) k classDraw idxDraws)
    (hres : split_and_select_random_data classDraw idxDraws x y xtest ytest w
      ntc k = some res) :
    res.x_target_labeled.length = ntc * k ∧
    res.y_target.length = ntc * k ∧
    ∃ blocks : List (List α),
      blocks.length = ntc ∧
      (∀ b ∈ blocks, b.length = k) ∧
      res.x_target_labeled = blocks.flatten ∧
      (∀ i, i < ntc → ∀ a ∈ blocks.getD i [],
        a ∈ applyMask (applyMask x (targetMask classDraw y))
          (classMask (applyMask y (targetMask classDraw y))
            (classDraw.getD i 0))) := by
  obtain ⟨hw, hne, xl, yl, xu, hsc, hres_eq⟩ := split_eq_some_iff.mp hres
  subst hres_eq
  have hlen2 : (applyMask x (targetMask classDraw y)).length =
      (applyMask y (targetMask classDraw y)).length :=
    length_applyMask_eq _ _ _ hxy
  obtain ⟨blocks, hb1, hb2, hb3, hb4, hb5, hb6⟩ :=
    sampleClasses_blocks hsc hdraws hlen2
  have hntc : classDraw.length = ntc := hclass.2.1
  rw [hntc] at hb1 hb4 hb5 hb6
  exact ⟨hb5, hb6, blocks, hb1, hb2, hb3, hb4⟩

/-- Witness for C1 at a concrete input: 2 training rows over 2 classes,
1 class selected, 1 example per class. -/
theorem C1_labeled_set_size_witness :
    IsSample 2 1 [0] ∧
    ((⟨[10], [[1, 0]], [30], [[1, 0]], [], [20], [[0, 1]]⟩ :
        SplitResult Nat).x_target_labeled.length = 1 * 1) :=
  ⟨by decide,
    (@C1_labeled_set_size Nat [0] [[0]] [10, 20] [[1, 0], [0, 1]] [30]
      [[1, 0]] 2 1 1 ⟨[10], [[1, 0]], [30], [[1, 0]], [], [20], [[0, 1]]⟩
      (by decide) (by decide) (by decide) (by decide)).1⟩

/-- C2: for a class `c` and a valid index draw, the labeled rows of
`get_random_labeled_examples` are the class-`c` rows at the drawn positions,
the unlabeled rows are the class-`c` rows at the complementary positions,
the two position sets are disjoint, and together the labeled and unlabeled
rows are a permutation of (exactly) all class-`c` rows. -/
theorem C2_class_partition {draw : List Nat} {x : List α}
    {y : List (List Nat)} {c k : Nat} {xl : List α} {yl : List (List Nat)}
    {xu : List α}
    (hdraw : IsSample (classPop x y c) k draw)
    (h : get_random_labeled_examples draw x y c k = some (xl, yl, xu)) :
    xl = selectIdx (applyMask x (classMask y c)) draw ∧
    xu = selectIdx (applyMask x (classMask y c))
      (complIdx (applyMask x (classMask y c)).length draw) ∧
    draw.Disjoint (complIdx (applyMask x (classMask y c)).length draw) ∧
    (xl ++ xu).Perm (applyMask x (classMask y c)) := by
  obtain ⟨hk, hr⟩ := grle_eq_some_iff.mp h
  obtain ⟨hxl, hyl, hxu⟩ : xl = _ ∧ yl = _ ∧ xu = _ := by
    simpa only [Prod.mk.injEq] using hr
  have hperm : (xl ++ xu).Perm (applyMask x (classMask y c)) := by
    rw [hxl, hxu]
    exact selectIdx_compl_perm hdraw
  refine ⟨hxl, ?_, ?_, hperm⟩
  · rw [hxu, removeIdx_eq_selectIdx_compl]
  · intro a ha hcompl
    exact (mem_complIdx.mp hcompl).2 ha

/-- Witness for C2 at a concrete input. -/
theorem C2_class_partition_witness :
    IsSample (classPop [10, 20] [[1, 0], [0, 1]] 0) 1 [0] ∧
    ([10] : List Nat) =
      selectIdx (applyMask [10, 20] (classMask [[1, 0], [0, 1]] 0)) [0] :=
  ⟨by decide,
    (@C2_class_partition Nat [0] [10, 20] [[1, 0], [0, 1]] 0 1 [10]
      [[1, 0]] [] (by decide) (by decide)).1⟩

/-- C3: the target rows and the auxiliary rows partition the training set:
the auxiliary row count plus the target row count is the training row count,
and target rows followed by auxiliary rows are a permutation of the training
set (no row dropped or duplicated). -/
theorem C3_target_auxiliary_partition {classDraw : List Nat}
    {idxDraws : List (List Nat)} {x : List α} {y : List (List Nat)}
    {xtest : List α} {ytest : List (List Nat)} {w ntc k : Nat}
    {res : SplitResult α}
    (hxy : x.length = y.length)
    (hres : split_and_select_random_data classDraw idxDraws x y xtest ytest w
      ntc k = some res) :
    res.x_auxiliary.length +
      (applyMask x (targetMask classDraw y)).length = x.length ∧
    ((applyMask x (targetMask classDraw y)) ++ res.x_auxiliary).Perm x := by
  obtain ⟨hw, hne, xl, yl, xu, hsc, hres_eq⟩ := split_eq_some_iff.mp hres
  subst hres_eq
  have hm : x.length = (targetMask classDraw y).length := by
    simp [targetMask, hxy]
  have hperm := applyMask_not_perm x (targetMask classDraw y) hm
  refine ⟨?_, hperm⟩
  show (applyMask x ((targetMask classDraw y).map (fun b => !b))).length +
    (applyMask x (targetMask classDraw y)).length = x.length
  have hlen := hperm.length_eq
  rw [List.length_append] at hlen
  omega

/-- Witness for C3 at a concrete input. -/
theorem C3_target_auxiliary_partition_witness :
    ([10, 20] : List Nat).length = [[1, 0], [0, 1]].length ∧
    ((⟨[10], [[1, 0]], [30], [[1, 0]], [], [20], [[0, 1]]⟩ :
        SplitResult Nat).x_auxiliary.length +
      (applyMask [10, 20] (targetMask [0] [[1, 0], [0, 1]])).length =
      ([10, 20] : List Nat).length) :=
  ⟨by decide,
    (@C3_target_auxiliary_partition Nat [0] [[0]] [10, 20]
      [[1, 0], [0, 1]] [30] [[1, 0]] 2 1 1
      ⟨[10], [[1, 0]], [30], [[1, 0]], [], [20], [[0, 1]]⟩
      (by decide) (by decide)).1⟩

/-- C4: on valid one-hot test labels, the returned test subset is exactly the
test rows whose one-hot label matches one of the selected classes, and its
row count is the number of such rows. -/
theorem C4_test_subset {classDraw : List Nat} {idxDraws : List (List Nat)}
    {x : List α} {y : List (List Nat)} {xtest : List α}
    {ytest : List (List Nat)} {w ntc k : Nat} {res : SplitResult α}
    (hlen : xtest.length = ytest.length)
    (hoh : ∀ row ∈ ytest, OneHot w row)
    (hclass : IsSample w ntc classDraw)
    (hres : split_and_select_random_data classDraw idxDraws x y xtest ytest w
      ntc k = some res) :
    res.y_test =
      ytest.filter (fun row => classDraw.any (fun c => row.getD c 0 == 1)) ∧
    res.x_test.length =
      ytest.countP (fun row => classDraw.any (fun c => row.getD c 0 == 1)) := by
  obtain ⟨hw, hne, xl, yl, xu, hsc, hres_eq⟩ := split_eq_some_iff.mp hres
  subst hres_eq
  have hbound : ∀ c ∈ classDraw, c < w := hclass.2.2
  have hpred : ∀ row ∈ ytest, (targetSum classDraw row == 1) =
      classDraw.any (fun c => row.getD c 0 == 1) := by
    intro row hrow
    have hiff := targetSum_eq_one_iff (hoh row hrow) hclass.1 hbound
    rw [Bool.eq_iff_iff]
    simp only [beq_iff_eq, List.any_eq_true]
    exact hiff
  have hy_test : applyMask ytest (targetMask classDraw ytest) =
      ytest.filter (fun row => classDraw.any (fun c => row.getD c 0 == 1)) := by
    rw [targetMask, applyMask_map_self]
    exact List.filter_congr hpred
  refine ⟨hy_test, ?_⟩
  have h1 : (applyMask xtest (targetMask classDraw ytest)).length =
      (applyMask ytest (targetMask classDraw ytest)).length :=
    length_applyMask_eq _ _ _ hlen
  rw [List.countP_eq_length_filter]
  rw [show (applyMask xtest (targetMask classDraw ytest) : List α) =
    (⟨xl, yl, applyMask xtest (targetMask classDraw ytest),
      applyMask ytest (targetMask classDraw ytest), xu,
      applyMask x ((targetMask classDraw y).map (fun b => !b)),
      applyMask y ((targetMask classDraw y).map (fun b => !b))⟩ :
        SplitResult α).x_test from rfl] at h1
  rw [h1, hy_test]

/-- Witness for C4 at a concrete input. -/
theorem C4_test_subset_witness :
    (∀ row ∈ [[1, 0]], OneHot 2 row) ∧
    ((⟨[10], [[1, 0]], [30], [[1, 0]], [], [20], [[0, 1]]⟩ :
        SplitResult Nat).y_test =
      [[1, 0]].filter (fun row => [0].any (fun c => row.getD c 0 == 1))) :=
  ⟨by decide,
    (@C4_test_subset Nat [0] [[0]] [10, 20] [[1, 0], [0, 1]] [30]
      [[1, 0]] 2 1 1 ⟨[10], [[1, 0]], [30], [[1, 0]], [], [20], [[0, 1]]⟩
      (by decide) (by decide) (by decide) (by decide)).1⟩

/-- C5: `split_and_select_random_data` fails (returns `none`, the propagated
`ValueError` of `random.sample` — never a silently truncated result) whenever
`num_target_classes` exceeds the one-hot width, or `num_examples_per_class`
exceeds the available target row count of some selected class. -/
theorem C5_sampling_failure {classDraw : List Nat}
    {idxDraws : List (List Nat)} {x : List α} {y : List (List Nat)}
    {xtest : List α} {ytest : List (List Nat)} {w ntc k : Nat}
    (h : w < ntc ∨ ∃ c ∈ classDraw,
      classPop (applyMask x (targetMask classDraw y))
        (applyMask y (targetMask classDraw y)) c < k) :
    split_and_select_random_data classDraw idxDraws x y xtest ytest w ntc k =
      none := by
  cases hopt : split_and_select_random_data classDraw idxDraws x y xtest
      ytest w ntc k with
  | none => rfl
  | some res =>
    obtain ⟨hw, hne, xl, yl, xu, hsc, _⟩ := split_eq_some_iff.mp hopt
    rcases h with h | h
    · omega
    · have hnone := (sampleClasses_eq_none_iff classDraw idxDraws).mpr h
      rw [hsc] at hnone
      exact absurd hnone (by simp)

/-- Witness for C5: one class requested more than the width allows. -/
theorem C5_sampling_failure_witness :
    (1 < 2 ∨ ∃ c ∈ ([0] : List Nat),
      classPop (applyMask [10, 20] (targetMask [0] [[1, 0], [0, 1]]))
        (applyMask [[1, 0], [0, 1]] (targetMask [0] [[1, 0], [0, 1]])) c < 1) ∧
    split_and_select_random_data [0] [[0]] [10, 20] [[1, 0], [0, 1]] [30]
      [[1, 0]] 1 2 1 = none :=
  ⟨Or.inl (by decide),
    @C5_sampling_failure Nat [0] [[0]] [10, 20] [[1, 0], [0, 1]] [30]
      [[1, 0]] 1 2 1 (Or.inl (by decide))⟩

/-- C7: a training row whose one-hot label has more than one `1` among the
selected class columns fails the `==1` row-sum test and is therefore sent to
the auxiliary set. -/
theorem C7_multi_hot_to_auxiliary {classDraw : List Nat}
    {idxDraws : List (List Nat)} {x : List α} {y : List (List Nat)}
    {xtest : List α} {ytest : List (List Nat)} {w ntc k : Nat}
    {res : SplitResult α} {row : List Nat}
    (hres : split_and_select_random_data classDraw idxDraws x y xtest ytest w
      ntc k = some res)
    (hrow : row ∈ y) (hsum : 1 < targetSum classDraw row) :
    row ∈ res.y_auxiliary := by
  obtain ⟨hw, hne, xl, yl, xu, hsc, hres_eq⟩ := split_eq_some_iff.mp hres
  subst hres_eq
  show row ∈ applyMask y ((targetMask classDraw y).map (fun b => !b))
  rw [targetMask, List.map_map, applyMask_map_self]
  refine List.mem_filter.mpr ⟨hrow, ?_⟩
  simp only [Function.comp_apply, Bool.not_eq_true', beq_eq_false_iff_ne,
    ne_eq]
  omega

/-- Witness for C7 at a concrete input with an invalid two-hot row. -/
theorem C7_multi_hot_to_auxiliary_witness :
    1 < targetSum [0, 1] [1, 1] ∧
    ([1, 1] : List Nat) ∈
      (⟨[10, 20], [[1, 0], [0, 1]], [1], [[1, 0]], [], [30], [[1, 1]]⟩ :
        SplitResult Nat).y_auxiliary :=
  ⟨by decide,
    @C7_multi_hot_to_auxiliary Nat [0, 1] [[0], [0]] [10, 20, 30]
      [[1, 0], [0, 1], [1, 1]] [1] [[1, 0]] 2 2 1
      ⟨[10, 20], [[1, 0], [0, 1]], [1], [[1, 0]], [], [30], [[1, 1]]⟩
      [1, 1] (by decide) (by decide) (by decide)⟩

/-- C10: the labeled images and labeled labels are index-aligned — the two
outputs have the same length, and every (image, label) pair at matching
positions in the labeled outputs is an (image, label) pair at matching
positions of the original training arrays (so the zip truncates nothing and
covers every position) — and every labeled label has a `1` in a selected
class column. -/
theorem C10_labeled_alignment {classDraw : List Nat}
    {idxDraws : List (List Nat)} {x : List α} {y : List (List Nat)}
    {xtest : List α} {ytest : List (List Nat)} {w ntc k : Nat}
    {res : SplitResult α}
    (hxy : x.length = y.length)
    (hres : split_and_select_random_data classDraw idxDraws x y xtest ytest w
      ntc k = some res) :
    res.x_target_labeled.length = res.y_target.length ∧
    (∀ pr ∈ res.x_target_labeled.zip res.y_target, pr ∈ x.zip y) ∧
    (∀ row ∈ res.y_target, ∃ c ∈ classDraw, row.getD c 0 = 1) := by
  obtain ⟨hw, hne, xl, yl, xu, hsc, hres_eq⟩ := split_eq_some_iff.mp hres
  subst hres_eq
  have hlen2 : (applyMask x (targetMask classDraw y)).length =
      (applyMask y (targetMask classDraw y)).length :=
    length_applyMask_eq _ _ _ hxy
  obtain ⟨hlenl, hzip, hrow⟩ := sampleClasses_align hsc hlen2
  refine ⟨hlenl, ?_, hrow⟩
  intro pr hpr
  have h1 := hzip pr hpr
  rw [applyMask_zip _ _ _ hxy] at h1
  exact mem_of_mem_applyMask h1

/-- Witness for C10 at a concrete input. -/
theorem C10_labeled_alignment_witness :
    ([10, 20] : List Nat).length = [[1, 0], [0, 1]].length ∧
    ((⟨[10], [[1, 0]], [30], [[1, 0]], [], [20], [[0, 1]]⟩ :
        SplitResult Nat).x_target_labeled.length =
      (⟨[10], [[1, 0]], [30], [[1, 0]], [], [20], [[0, 1]]⟩ :
        SplitResult Nat).y_target.length) ∧
    (∀ pr ∈ ((⟨[10], [[1, 0]], [30], [[1, 0]], [], [20], [[0, 1]]⟩ :
        SplitResult Nat).x_target_labeled.zip
          (⟨[10], [[1, 0]], [30], [[1, 0]], [], [20], [[0, 1]]⟩ :
            SplitResult Nat).y_target),
      pr ∈ ([10, 20] : List Nat).zip [[1, 0], [0, 1]]) :=
  ⟨by decide,
    (@C10_labeled_alignment Nat [0] [[0]] [10, 20] [[1, 0], [0, 1]] [30]
      [[1, 0]] 2 1 1 ⟨[10], [[1, 0]], [30], [[1, 0]], [], [20], [[0, 1]]⟩
      (by decide) (by decide)).1,
    (@C10_labeled_alignment Nat [0] [[0]] [10, 20] [[1, 0], [0, 1]] [30]
      [[1, 0]] 2 1 1 ⟨[10], [[1, 0]], [30], [[1, 0]], [], [20], [[0, 1]]⟩
      (by decide) (by decide)).2.1⟩

/-! ### Loader lemmas and claims -/

theorem mem_rawRows {lb ib : List Nat} {row : List Nat}
    (h : row ∈ rawRows lb ib) : ∀ v ∈ row, v ∈ ib := by
  intro v hv
  rcases List.mem_map.mp h with ⟨i, _, rfl⟩
  exact List.mem_of_mem_drop (List.mem_of_mem_drop (List.mem_of_mem_take hv))

/-- Inversion of a successful `load_mnist` call with `return_4d_tensor`
off: both files decompressed, the buffers were long enough, the byte count
matched, and the returned flat rows are the (optionally normalized) raw
rows. -/
theorem load_flat_ok {lF iF : GzFile} {n o : Bool} {rows : List (List ℚ)}
    {L : LabelsOut}
    (h : load_mnist lF iF n false o = Except.ok (ImagesOut.flat rows, L)) :
    ∃ lb ib, lF = GzFile.ok lb ∧ iF = GzFile.ok ib ∧
      rows = (if n then
          (rawRows lb ib).map (fun r => r.map (fun (v : Nat) => (v : ℚ) / 255))
        else (rawRows lb ib).map (fun r => r.map (fun (v : Nat) => (v : ℚ)))) := by
  cases lF with
  | missing => exact absurd h (by simp [load_mnist, readGzip])
  | corrupt => exact absurd h (by simp [load_mnist, readGzip])
  | ok lb =>
    by_cases h8 : 8 ≤ lb.length
    case neg =>
      exact absurd h (by simp [load_mnist, readGzip, frombufferU8, h8])
    cases iF with
    | missing =>
      exact absurd h (by simp [load_mnist, readGzip, frombufferU8, h8])
    | corrupt =>
      exact absurd h (by simp [load_mnist, readGzip, frombufferU8, h8])
    | ok ib =>
      refine ⟨lb, ib, rfl, rfl, ?_⟩
      by_cases h16 : 16 ≤ ib.length
      case neg =>
        exact absurd h (by simp [load_mnist, readGzip, frombufferU8, h8, h16])
      by_cases hre : ib.length - 16 = (lb.length - 8) * 784
      case neg =>
        exact absurd h
          (by simp [load_mnist, readGzip, frombufferU8, reshapeRows, h8, h16,
            List.length_drop, hre])
      by_cases hoh : o = true ∧
          ¬((lb.drop 8).all (fun v => decide (v < 10)) = true)
      case pos =>
        obtain ⟨rfl, hall⟩ := hoh
        exact absurd h
          (by simp [load_mnist, readGzip, frombufferU8, reshapeRows,
            to_categorical, Except.map, h8, h16, List.length_drop, hre, hall])
      cases o with
      | true =>
        have hall : (lb.drop 8).all (fun v => decide (v < 10)) = true := by
          by_contra hc
          exact hoh ⟨rfl, hc⟩
        simp [load_mnist, readGzip, frombufferU8, reshapeRows,
          to_categorical, Except.map, h8, h16, List.length_drop, hre,
          hall] at h
        rw [← h.1]
        cases n <;> simp [rawRows, Function.comp, List.map_map]
      | false =>
        simp [load_mnist, readGzip, frombufferU8, reshapeRows,
          to_categorical, Except.map, h8, h16, List.length_drop, hre] at h
        rw [← h.1]
        cases n <;> simp [rawRows, Function.comp, List.map_map]

/-- Inversion of a successful `load_mnist` call with `one_hot` on: the label
bytes were all below 10 and the returned rows are their one-hot encodings. -/
theorem load_oneHot_ok {lF iF : GzFile} {n r : Bool} {imgs : ImagesOut}
    {rows : List (List Nat)}
    (h : load_mnist lF iF n r true = Except.ok (imgs, LabelsOut.oneHot rows)) :
    ∃ lb, lF = GzFile.ok lb ∧ (lb.drop 8).all (fun v => v < 10) = true ∧
      rows = (lb.drop 8).map (oneHotVec 10) := by
  cases lF with
  | missing => exact absurd h (by simp [load_mnist, readGzip])
  | corrupt => exact absurd h (by simp [load_mnist, readGzip])
  | ok lb =>
    by_cases h8 : 8 ≤ lb.length
    case neg =>
      exact absurd h (by simp [load_mnist, readGzip, frombufferU8, h8])
    cases iF with
    | missing =>
      exact absurd h (by simp [load_mnist, readGzip, frombufferU8, h8])
    | corrupt =>
      exact absurd h (by simp [load_mnist, readGzip, frombufferU8, h8])
    | ok ib =>
      refine ⟨lb, rfl, ?_⟩
      by_cases h16 : 16 ≤ ib.length
      case neg =>
        exact absurd h (by simp [load_mnist, readGzip, frombufferU8, h8, h16])
      by_cases hre : ib.length - 16 = (lb.length - 8) * 784
      case neg =>
        exact absurd h
          (by simp [load_mnist, readGzip, frombufferU8, reshapeRows, h8, h16,
            List.length_drop, hre])
      by_cases hall : (lb.drop 8).all (fun v => decide (v < 10)) = true
      case neg =>
        exact absurd h
          (by simp [load_mnist, readGzip, frombufferU8, reshapeRows,
            to_categorical, Except.map, h8, h16, List.length_drop, hre, hall])
      refine ⟨hall, ?_⟩
      simp [load_mnist, readGzip, frombufferU8, reshapeRows,
        to_categorical, Except.map, h8, h16, List.length_drop, hre, hall] at h
      rw [← h.2]
      simp

/-- C6: `load_mnist` fails with a propagated error (and produces no partial
result) whenever either gzip file is missing or invalid, or the decompressed
image byte count disagrees with `16 + len(labels) * 784`. -/
theorem C6_load_failure (lF iF : GzFile) (n r o : Bool)
    (h : lF = GzFile.missing ∨ lF = GzFile.corrupt ∨ iF = GzFile.missing ∨
      iF = GzFile.corrupt ∨
      ∃ lb ib, lF = GzFile.ok lb ∧ iF = GzFile.ok ib ∧ 8 ≤ lb.length ∧
        ib.length ≠ 16 + (lb.length - 8) * 784) :
    ∃ e, load_mnist lF iF n r o = Except.error e := by
  rcases h with rfl | rfl | rfl | rfl | ⟨lb, ib, rfl, rfl, h8, hbytes⟩
  · exact ⟨.fileNotFound, rfl⟩
  · exact ⟨.badGzip, rfl⟩
  · cases lF with
    | missing => exact ⟨.fileNotFound, rfl⟩
    | corrupt => exact ⟨.badGzip, rfl⟩
    | ok lb =>
      by_cases h8 : 8 ≤ lb.length
      · exact ⟨.fileNotFound,
          by simp [load_mnist, readGzip, frombufferU8, h8]⟩
      · exact ⟨.badOffset,
          by simp [load_mnist, readGzip, frombufferU8, h8]⟩
  · cases lF with
    | missing => exact ⟨.fileNotFound, rfl⟩
    | corrupt => exact ⟨.badGzip, rfl⟩
    | ok lb =>
      by_cases h8 : 8 ≤ lb.length
      · exact ⟨.badGzip,
          by simp [load_mnist, readGzip, frombufferU8, h8]⟩
      · exact ⟨.badOffset,
          by simp [load_mnist, readGzip, frombufferU8, h8]⟩
  · by_cases h16 : 16 ≤ ib.length
    · have hre : ¬(ib.length - 16 = (lb.length - 8) * 784) := by omega
      exact ⟨.badReshape,
        by simp [load_mnist, readGzip, frombufferU8, reshapeRows, h8, h16,
          List.length_drop, hre]⟩
    · exact ⟨.badOffset,
        by simp [load_mnist, readGzip, frombufferU8, h8, h16]⟩

/-- Witness for C6: a missing label file. -/
theorem C6_load_failure_witness :
    (GzFile.missing = GzFile.missing ∨ GzFile.missing = GzFile.corrupt ∨
      GzFile.ok [] = GzFile.missing ∨ GzFile.ok [] = GzFile.corrupt ∨
      ∃ lb ib, GzFile.missing = GzFile.ok lb ∧ GzFile.ok [] = GzFile.ok ib ∧
        8 ≤ lb.length ∧ ib.length ≠ 16 + (lb.length - 8) * 784) ∧
    ∃ e, load_mnist GzFile.missing (GzFile.ok []) true true true =
      Except.error e :=
  ⟨Or.inl rfl,
    C6_load_failure GzFile.missing (GzFile.ok []) true true true (Or.inl rfl)⟩

/-- C8: on the same input files, `load_mnist` with `normalize` on returns at
each pixel position exactly the raw value divided by 255 (so raw `255`
becomes exactly `1` there), every raw value being an integer in `[0, 255]`
for a byte-valued image file, and every normalized value lying in `[0, 1]`;
with `normalize` off it returns the raw integer values unchanged. -/
theorem C8_normalization {lF iF : GzFile} {o : Bool}
    {rowsN rowsR : List (List ℚ)} {L1 L2 : LabelsOut}
    (h1 : load_mnist lF iF true false o = Except.ok (ImagesOut.flat rowsN, L1))
    (h2 : load_mnist lF iF false false o = Except.ok (ImagesOut.flat rowsR, L2))
    (hbytes : ∀ ib, iF = GzFile.ok ib → ∀ v ∈ ib, v ≤ 255) :
    rowsN = rowsR.map (fun r => r.map (fun v => v / 255)) ∧
    (∀ row ∈ rowsR, ∀ v ∈ row, ∃ b : Nat, b ≤ 255 ∧ v = (b : ℚ)) ∧
    (∀ row ∈ rowsN, ∀ q ∈ row, 0 ≤ q ∧ q ≤ 1) ∧
    (255 : ℚ) / 255 = 1 := by
  obtain ⟨lb, ib, hlF, hiF, hrowsN⟩ := load_flat_ok h1
  obtain ⟨lb2, ib2, hlF2, hiF2, hrowsR⟩ := load_flat_ok h2
  rw [hlF] at hlF2
  rw [hiF] at hiF2
  obtain rfl : lb = lb2 := by injection hlF2
  obtain rfl : ib = ib2 := by injection hiF2
  simp only [reduceIte] at hrowsN
  simp only [Bool.false_eq_true, reduceIte] at hrowsR
  have hb : ∀ v ∈ ib, v ≤ 255 := hbytes ib hiF
  refine ⟨?_, ?_, ?_, by norm_num⟩
  · rw [hrowsN, hrowsR, List.map_map]
    simp [Function.comp, List.map_map]
  · intro row hrow v hv
    rw [hrowsR] at hrow
    rcases List.mem_map.mp hrow with ⟨raw, hraw, rfl⟩
    rcases List.mem_map.mp hv with ⟨b, hbmem, rfl⟩
    exact ⟨b, hb b (mem_rawRows hraw b hbmem), rfl⟩
  · intro row hrow q hq
    rw [hrowsN] at hrow
    rcases List.mem_map.mp hrow with ⟨raw, hraw, rfl⟩
    rcases List.mem_map.mp hq with ⟨b, hbmem, rfl⟩
    have hble : b ≤ 255 := hb b (mem_rawRows hraw b hbmem)
    constructor
    · positivity
    · rw [div_le_one (by norm_num)]
      exact_mod_cast hble

set_option maxRecDepth 20000 in
/-- Witness for C8 on a one-image file of zero bytes. -/
theorem C8_normalization_witness :
    load_mnist (GzFile.ok (List.replicate 9 0))
        (GzFile.ok (List.replicate 800 0)) true false false =
      Except.ok (ImagesOut.flat
        ((rawRows (List.replicate 9 0) (List.replicate 800 0)).map
          (fun r => r.map (fun (v : Nat) => (v : ℚ) / 255))),
        LabelsOut.ints [0]) ∧
    (rawRows (List.replicate 9 0) (List.replicate 800 0)).map
        (fun r => r.map (fun (v : Nat) => (v : ℚ) / 255)) =
      ((rawRows (List.replicate 9 0) (List.replicate 800 0)).map
        (fun r => r.map (fun (v : Nat) => (v : ℚ)))).map
        (fun r => r.map (fun v => v / 255)) :=
  ⟨by rfl,
    (@C8_normalization (GzFile.ok (List.replicate 9 0))
      (GzFile.ok (List.replicate 800 0)) false
      ((rawRows (List.replicate 9 0) (List.replicate 800 0)).map
        (fun r => r.map (fun (v : Nat) => (v : ℚ) / 255)))
      ((rawRows (List.replicate 9 0) (List.replicate 800 0)).map
        (fun r => r.map (fun (v : Nat) => (v : ℚ))))
      (LabelsOut.ints [0]) (LabelsOut.ints [0])
      (by rfl) (by rfl)
      (by
        intro ib hib
        injection hib with h
        subst h
        intro v hv
        have hv0 : v = 0 := List.eq_of_mem_replicate hv
        omega)).1⟩

/-- C9: on a successful `load_mnist` call with `one_hot` set, every returned
label row is a 10-wide one-hot vector: it has length 10 and sums to exactly
1. -/
theorem C9_one_hot_row_sums {lF iF : GzFile} {n r : Bool} {imgs : ImagesOut}
    {rows : List (List Nat)}
    (h : load_mnist lF iF n r true = Except.ok (imgs, LabelsOut.oneHot rows)) :
    ∀ row ∈ rows, row.length = 10 ∧ row.sum = 1 := by
  obtain ⟨lb, hlF, hall, hrows⟩ := load_oneHot_ok h
  intro row hrow
  rw [hrows] at hrow
  rcases List.mem_map.mp hrow with ⟨j, hj, rfl⟩
  have hj10 : j < 10 := by
    have := List.all_eq_true.mp hall j hj
    simpa using this
  exact ⟨length_oneHotVec 10 j, sum_oneHotVec hj10⟩

set_option maxRecDepth 20000 in
/-- Witness for C9 on a one-image file with label 0. -/
theorem C9_one_hot_row_sums_witness :
    load_mnist (GzFile.ok (List.replicate 9 0))
        (GzFile.ok (List.replicate 800 0)) false false true =
      Except.ok (ImagesOut.flat
        ((rawRows (List.replicate 9 0) (List.replicate 800 0)).map
          (fun r => r.map (fun (v : Nat) => (v : ℚ)))),
        LabelsOut.oneHot (((List.replicate 9 0).drop 8).map (oneHotVec 10))) ∧
    ∀ row ∈ ((List.replicate 9 0).drop 8).map (oneHotVec 10),
      List.length row = 10 ∧ List.sum row = 1 :=
  ⟨by rfl,
    @C9_one_hot_row_sums (GzFile.ok (List.replicate 9 0))
      (GzFile.ok (List.replicate 800 0)) false false
      (ImagesOut.flat
        ((rawRows (List.replicate 9 0) (List.replicate 800 0)).map
          (fun r => r.map (fun (v : Nat) => (v : ℚ)))))
      (((List.replicate 9 0).drop 8).map (oneHotVec 10)) (by rfl)⟩

end OneShotDL
